import Mathlib

/-!
Verification development for the symbolic hardware-security verification
engine of this repository.  Two scripts are embedded:

* `hardware_security_projects/hardware_trojan_detection/formal_verifier.py`
  (namespace `FV`): the Verilog pre-scan and signal extraction of
  `VerilogParser`, and the property evaluator and Trojan-specific checks of
  `FormalVerifier`.
* `async-pchb-verifier/pchb_verifier.py` (namespace `PCHB`): `load_design`,
  the handshake and stability checks, and the Trojan pattern pipeline
  (`_pattern_to_z3`, `_apply_operator`, `_detect_trojans`).

Both scripts delegate satisfiability questions to the z3 solver over
boolean variables (signals of width 1) created from signal names.  The
solver is embedded as mathematical satisfiability of a list of constraints
over assignments `String → Bool`; a computable decision procedure
`satDecide` (enumeration of assignments to the finitely many occurring
variables) is proved equivalent to the propositional statement `SatC`, so
concrete runs evaluate and general theorems reason through `SatC`.
-/

deriving instance DecidableEq for Except

namespace HSV

/-- Boolean expressions over named signal variables: the fragment of z3
expressions that the two scripts build for width-1 signals (`Bool(name)`
variables combined with `And`, `Or`, `Not`, `Implies`, `==` and the
constants `True`/`False`). -/
inductive BExpr where
  | var (name : String)
  | lit (b : Bool)
  | notE (e : BExpr)
  | andE (a b : BExpr)
  | orE (a b : BExpr)
  | impliesE (a b : BExpr)
  | eqE (a b : BExpr)
deriving DecidableEq, Repr

/-- Evaluation of a boolean expression under an assignment of the signal
variables. -/
def evalB (f : String → Bool) : BExpr → Bool
  | .var n => f n
  | .lit b => b
  | .notE e => !evalB f e
  | .andE a b => evalB f a && evalB f b
  | .orE a b => evalB f a || evalB f b
  | .impliesE a b => !evalB f a || evalB f b
  | .eqE a b => evalB f a == evalB f b

/-- The signal variables occurring in an expression. -/
def varsB : BExpr → List String
  | .var n => [n]
  | .lit _ => []
  | .notE e => varsB e
  | .andE a b => varsB a ++ varsB b
  | .orE a b => varsB a ++ varsB b
  | .impliesE a b => varsB a ++ varsB b
  | .eqE a b => varsB a ++ varsB b

/-- A solver constraint: either a plain boolean expression, or a z3
`ForAll` over a list of boolean variables (the only quantified form the
evaluator ever adds, at the top level of a constraint —
`formal_verifier.py` line 258). -/
inductive Constraint where
  | expr (e : BExpr)
  | forallC (vs : List String) (body : BExpr)
deriving DecidableEq, Repr

/-- Finite enumeration of all assignments (as association lists) to a
given list of variable names. -/
def boolAssignments : List String → List (List (String × Bool))
  | [] => [[]]
  | v :: vs => (boolAssignments vs).flatMap fun τ => [(v, true) :: τ, (v, false) :: τ]

/-- Read an association-list assignment as a total assignment (variables
not bound default to `false`; constrained variables are always bound where
this matters). -/
def envOf (τ : List (String × Bool)) : String → Bool :=
  fun n => ((τ.lookup n).getD false)

/-- Override an assignment on the variables bound by an association list
(the semantics of z3 quantification over the named variables). -/
def overrideEnv (f : String → Bool) (τ : List (String × Bool)) : String → Bool :=
  fun n => match τ.lookup n with
    | some b => b
    | none => f n

/-- A constraint holds under an assignment.  A top-level `ForAll` holds
when the body holds for every assignment of the quantified variables,
the remaining variables being fixed by the ambient assignment. -/
def holdsC (f : String → Bool) : Constraint → Bool
  | .expr e => evalB f e
  | .forallC vs body => (boolAssignments vs).all fun τ => evalB (overrideEnv f τ) body

/-- The free variables of a constraint. -/
def varsC : Constraint → List String
  | .expr e => varsB e
  | .forallC vs body => (varsB body).filter (fun n => !vs.contains n)

/-- Free variables of a whole constraint set. -/
def varsCs (cs : List Constraint) : List String :=
  cs.flatMap varsC

/-- All constraints of a set hold under an assignment. -/
def holdsAll (f : String → Bool) (cs : List Constraint) : Bool :=
  cs.all (holdsC f)

/-- The first satisfying assignment found by enumerating assignments to
the free variables of the constraint set: the embedding of the model that
`solver.model()` returns after a `sat` answer. -/
def firstSat (cs : List Constraint) : Option (List (String × Bool)) :=
  (boolAssignments (varsCs cs)).find? fun τ => holdsAll (envOf τ) cs

/-- Computable satisfiability check for a constraint set: the embedding of
`solver.check() == sat`. -/
def satDecide (cs : List Constraint) : Bool :=
  (firstSat cs).isSome

/-- Propositional satisfiability of a constraint set. -/
def SatC (cs : List Constraint) : Prop :=
  ∃ f : String → Bool, holdsAll f cs = true

/-- Restriction of an assignment to a list of variables, as an
association list. -/
def restrictEnv (f : String → Bool) (vs : List String) : List (String × Bool) :=
  vs.map fun v => (v, f v)

namespace FV

/-- Python ASCII whitespace, the characters matched by the regex class
backslash-s on the inputs in scope. -/
def isPySpace (c : Char) : Bool :=
  c = ' ' || c = '\t' || c = '\n' || c = '\r' || c = '\x0b' || c = '\x0c'

/-- A regex word character (the class backslash-w, ASCII fragment). -/
def isWordChar (c : Char) : Bool :=
  c.isAlphanum || c = '_'

/-- Drop a literal character sequence from the front of the input,
failing when the input does not start with it. -/
def dropLit : List Char → List Char → Option (List Char)
  | [], l => some l
  | _ :: _, [] => none
  | p :: ps, c :: cs => if c = p then dropLit ps cs else none

/-- Drop leading whitespace (greedy whitespace-star). -/
def dropWs (l : List Char) : List Char :=
  l.dropWhile isPySpace

/-- First pass of `VerilogParser._remove_comments` (line 55): every match
of a line comment regex (two slashes, then a lazy run of characters, then
a newline) is replaced by a newline.  The state argument is `none` while
scanning ordinary text and `some acc` inside a potential line comment,
`acc` holding the characters consumed so far; a comment never closed by a
newline is not a regex match and is restored verbatim. -/
def stripLineAux : Option (List Char) → List Char → List Char
  | none, [] => []
  | none, '/' :: '/' :: rest => stripLineAux (some ['/', '/']) rest
  | none, c :: rest => c :: stripLineAux none rest
  | some acc, [] => acc
  | some _, '\n' :: rest => '\n' :: stripLineAux none rest
  | some acc, c :: rest => stripLineAux (some (acc ++ [c])) rest

/-- Second pass of `VerilogParser._remove_comments` (line 56): every
match of a block comment regex (slash-star, a lazy run of arbitrary
characters including newlines, star-slash) is removed.  Unclosed block
openers are not matches and are restored verbatim. -/
def stripBlockAux : Option (List Char) → List Char → List Char
  | none, [] => []
  | none, '/' :: '*' :: rest => stripBlockAux (some ['/', '*']) rest
  | none, c :: rest => c :: stripBlockAux none rest
  | some acc, [] => acc
  | some _, '*' :: '/' :: rest => stripBlockAux none rest
  | some acc, c :: rest => stripBlockAux (some (acc ++ [c])) rest

/-- `VerilogParser._remove_comments`: strip line comments, then block
comments. -/
def removeComments (s : String) : String :=
  ⟨stripBlockAux none (stripLineAux none s.data)⟩

/-- Search: does the predicate match at some suffix of the input? -/
def searchAux (p : List Char → Bool) : List Char → Bool
  | [] => p []
  | c :: rest => p (c :: rest) || searchAux p rest

/-- Match of the rare-condition signature at the current position:
literal rare_signal1, optional whitespace, two ampersands, optional
whitespace, literal rare_signal2. -/
def rareAt (l : List Char) : Bool :=
  (do
    let l1 ← dropLit "rare_signal1".data l
    let l2 ← dropLit "&&".data (dropWs l1)
    let _ ← dropLit "rare_signal2".data (dropWs l2)
    pure ()).isSome

/-- Lazy scan for a closing bracket: consume non-newline characters until
a right bracket whose continuation succeeds (the bracketed lazy group of
the key-leakage signature). -/
def lazyCloseBracket (k : List Char → Bool) : List Char → Bool
  | [] => false
  | c :: rest =>
      ((c = ']') && k rest) || ((c ≠ '\n') && lazyCloseBracket k rest)

/-- Existence of a closing bracket after a lazy non-newline run (final
group of the key-leakage signature, with nothing after it). -/
def lazyCloseBracketEnd : List Char → Bool
  | [] => false
  | ']' :: _ => true
  | c :: rest => (c ≠ '\n') && lazyCloseBracketEnd rest

/-- Match of the key-leakage signature at the current position: literal
ciphertext, whitespace, a bracketed group, whitespace, a `<=` arrow,
whitespace, literal `key[`, a lazily closed bracket. -/
def keyLeakAt (l : List Char) : Bool :=
  match dropLit "ciphertext".data l with
  | none => false
  | some l1 =>
      match dropWs l1 with
      | '[' :: l2 =>
          lazyCloseBracket (fun l3 =>
            match dropLit "<=".data (dropWs l3) with
            | none => false
            | some l4 =>
                match dropLit "key[".data (dropWs l4) with
                | none => false
                | some l5 => lazyCloseBracketEnd l5) l2
      | _ => false

/-- Lazy scan for a literal after a run of non-newline characters (the
tail of the hidden-state signature). -/
def lazyFindLit (pat : List Char) : List Char → Bool
  | [] => (dropLit pat []).isSome
  | c :: rest => (dropLit pat (c :: rest)).isSome || ((c ≠ '\n') && lazyFindLit pat rest)

/-- Match of the hidden-state signature at the current position: an `if`
over a negated reset followed by a begin block whose same-line remainder
mentions secret. -/
def hiddenAt (l : List Char) : Bool :=
  (do
    let l1 ← dropLit "if".data l
    let l2 ← dropLit "(".data (dropWs l1)
    let l3 ← dropLit "!".data (dropWs l2)
    let l4 ← dropLit "reset".data (dropWs l3)
    let l5 ← dropLit ")".data (dropWs l4)
    let l6 ← dropLit "begin".data (dropWs l5)
    if lazyFindLit "secret".data l6 then some () else none).isSome

/-- A parse-time security warning, as appended to
`VerilogParser.security_warnings`. -/
structure Finding where
  ftype : String
  severity : String
  description : String
deriving DecidableEq, Repr

def rareConditionFinding : Finding :=
  ⟨"rare_condition", "high", "Potential rare condition detected"⟩

def keyLeakageFinding : Finding :=
  ⟨"key_leakage", "high", "Potential key leakage detected"⟩

def hiddenStateFinding : Finding :=
  ⟨"hidden_state", "high", "Potential hidden state detected"⟩

/-- ASCII lowercasing of one character (the fragment of case folding
the IGNORECASE searches need; every pattern literal is lowercase
ASCII). -/
def lowerChar (c : Char) : Char :=
  if 'A' ≤ c && c ≤ 'Z' then Char.ofNat (c.toNat + 32) else c

/-- Case-insensitive search of the rare-condition signature in a text
(the `re.IGNORECASE` search is embedded as a search of the lowercase
pattern in the lowercased text; all pattern literals are lowercase). -/
def hasRareCondition (content : String) : Bool :=
  searchAux rareAt (content.data.map lowerChar)

def hasKeyLeakage (content : String) : Bool :=
  searchAux keyLeakAt (content.data.map lowerChar)

def hasHiddenState (content : String) : Bool :=
  searchAux hiddenAt (content.data.map lowerChar)

/-- `VerilogParser._detect_suspicious_patterns` (lines 120-128): one
high-severity warning per matching Trojan signature, in the fixed
dictionary order rare_condition, key_leakage, hidden_state. -/
def detectSuspiciousPatterns (content : String) : List Finding :=
  (if hasRareCondition content then [rareConditionFinding] else []) ++
  (if hasKeyLeakage content then [keyLeakageFinding] else []) ++
  (if hasHiddenState content then [hiddenStateFinding] else [])

/-- Take a maximal run of decimal digits from the front. -/
def takeDigits : List Char → List Char × List Char
  | [] => ([], [])
  | c :: rest =>
      if c.isDigit then
        let (ds, r) := takeDigits rest
        (c :: ds, r)
      else ([], c :: rest)

/-- Decimal value of a digit list. -/
def digitsToNat (ds : List Char) : Nat :=
  ds.foldl (fun acc c => acc * 10 + (c.toNat - '0'.toNat)) 0

/-- `VerilogParser._parse_width` (lines 111-118): `re.match` of digits,
whitespace, colon, whitespace, digits, anchored at the START of the
argument string; on a match the width is `|msb-lsb|+1`, otherwise 1.
The anchoring is the faithful embedding of `re.match` (which only
matches at position 0). -/
def parseWidthStr (s : String) : Nat :=
  match takeDigits s.data with
  | ([], _) => 1
  | (msbDs, r1) =>
      match dropWs r1 with
      | ':' :: r2 =>
          match takeDigits (dropWs r2) with
          | ([], _) => 1
          | (lsbDs, _) =>
              let msb := digitsToNat msbDs
              let lsb := digitsToNat lsbDs
              (max msb lsb - min msb lsb) + 1
      | _ => 1

/-- Skip a lazily closed bracket group; `none` when no closing bracket
exists in the non-newline remainder (the optional group then fails and
the match falls through to the word that cannot start at the opening
bracket). -/
def skipBracketGroup : List Char → Option (List Char)
  | [] => none
  | ']' :: rest => some rest
  | c :: rest => if c = '\n' then none else skipBracketGroup rest

/-- The direction-and-name regex of `_extract_module_io` (line 67):
a direction keyword, whitespace, an optional bracketed range, whitespace,
and a word; returns the direction and the captured name. -/
def dirMatch (port : List Char) : Option (String × String) :=
  let tryDir : List Char → Option (String × List Char) := fun l =>
    match dropLit "input".data l with
    | some r => some ("input", r)
    | none =>
        match dropLit "output".data l with
        | some r => some ("output", r)
        | none =>
            match dropLit "inout".data l with
            | some r => some ("inout", r)
            | none => none
  match tryDir port with
  | none => none
  | some (dir, r1) =>
      let r2 := dropWs r1
      let r3 := match r2 with
        | '[' :: inner =>
            match skipBracketGroup inner with
            | some after => after
            | none => r2
        | _ => r2
      let (w, _) := (dropWs r3).span isWordChar
      if w.isEmpty then none else some (dir, ⟨w⟩)

/-- Python str.strip. -/
def pyStrip (l : List Char) : List Char :=
  ((l.dropWhile isPySpace).reverse.dropWhile isPySpace).reverse

/-- Split on commas; together with the per-piece strip this embeds the
`re.split` on a whitespace-comma-whitespace pattern applied to the
already stripped port list (the two agree on every input: piece edges
are exactly the characters adjacent to a comma or to the stripped ends).
-/
def splitCommas : List Char → List (List Char)
  | [] => [[]]
  | ',' :: rest => [] :: splitCommas rest
  | c :: rest =>
      match splitCommas rest with
      | [] => [[c]]
      | p :: ps => (c :: p) :: ps

/-- A signal record of the `VerilogParser.signals` dictionary. -/
structure SigInfo where
  stype : String
  width : Nat
  security : String
deriving DecidableEq, Repr

/-- Is one character list an infix of another? -/
def containsSub (pat : List Char) : List Char → Bool :=
  searchAux fun l => (dropLit pat l).isSome

/-- Python dict insertion: an existing key keeps its position and gets
the new value, a new key is appended. -/
def dictInsert (m : List (String × SigInfo)) (k : String) (v : SigInfo) :
    List (String × SigInfo) :=
  if m.any (fun p => p.1 == k) then
    m.map fun p => if p.1 == k then (k, v) else p
  else m ++ [(k, v)]

/-- Per-port processing of `_extract_module_io` (lines 65-74): ports with
a direction match are recorded with the width parsed FROM THE WHOLE PORT
STRING (line 72 passes `port`, not the bracket contents, to
`_parse_width`) and a security tag from the name. -/
def recordPort (sigs : List (String × SigInfo)) (port : List Char) :
    List (String × SigInfo) :=
  match dirMatch (pyStrip port) with
  | none => sigs
  | some (dir, name) =>
      dictInsert sigs name
        ⟨dir, parseWidthStr ⟨port⟩,
          if containsSub "key".data name.data then "sensitive" else "normal"⟩

/-- The module-header search of `_extract_module_io` (line 60): literal
module, whitespace, a module name, whitespace, an opening parenthesis,
then a lazy run of arbitrary characters (DOTALL) up to the first closing
parenthesis that is followed by optional whitespace and a semicolon; the
lazy run is the captured port list. -/
def moduleAt (l : List Char) : Option (List Char) :=
  match dropLit "module".data l with
  | none => none
  | some r1 =>
      match r1 with
      | c :: r2 =>
          if isPySpace c then
            let r3 := dropWs r2
            let (w, r4) := r3.span isWordChar
            if w.isEmpty then none
            else
              match dropWs r4 with
              | '(' :: r5 => lazyPorts [] r5
              | _ => none
          else none
      | [] => none
where
  /-- Scan for the first closing parenthesis followed by optional
  whitespace and a semicolon, accumulating the captured characters. -/
  lazyPorts (acc : List Char) : List Char → Option (List Char)
    | [] => none
    | c :: rest =>
        if c = ')' then
          match dropWs rest with
          | ';' :: _ => some acc
          | _ => lazyPorts (acc ++ [c]) rest
        else lazyPorts (acc ++ [c]) rest

/-- First match of a positional matcher in the text. -/
def searchFirst (p : List Char → Option (List Char)) : List Char → Option (List Char)
  | [] => p []
  | c :: rest =>
      match p (c :: rest) with
      | some x => some x
      | none => searchFirst p rest

/-- `VerilogParser._extract_module_io` (lines 58-74) on comment-stripped
text: find the module header, take its captured port list, replace
newlines by spaces, strip, split on commas, and record each
direction-matching port; `none` embeds the raised ValueError when no
module declaration is found. -/
def extractModuleIO (content : List Char) : Option (List (String × SigInfo)) :=
  match searchFirst moduleAt content with
  | none => none
  | some ports =>
      let cleaned := pyStrip (ports.map fun c => if c = '\n' then ' ' else c)
      some ((splitCommas cleaned).foldl recordPort [])

def parseErrorFinding : Finding :=
  ⟨"parse_error", "high", "Failed to parse Verilog: No module declaration found"⟩

/-- Outcome of `VerilogParser.parse` for the fields the claims are about:
the pre-scan warnings and the module-port signals.  Line 37 runs
`_detect_suspicious_patterns` on the RAW text; line 38 only then strips
comments; extraction runs on the stripped text.  The later extraction
steps (registers, wires, always blocks, lines 76-139) never append to
`security_warnings` and are not needed by any claim, so they are not
re-traced here; `signals` holds the module-port entries. -/
structure ParseOut where
  warnings : List Finding
  signals : List (String × SigInfo)
  ok : Bool
deriving DecidableEq, Repr

def fvParse (content : String) : ParseOut :=
  let pre := detectSuspiciousPatterns content
  let stripped := removeComments content
  match extractModuleIO stripped.data with
  | none => ⟨pre ++ [parseErrorFinding], [], false⟩
  | some sigs => ⟨pre, sigs, true⟩

/-- A dedicated Trojan finding as appended to
`FormalVerifier.results["trojan_findings"]`; the witness values recorded
from the model (`str(model[...])`, True or False) are embedded as
booleans. -/
structure TrojanFinding where
  ftype : String
  severity : String
  description : String
  evidence : List (String × Bool)
deriving DecidableEq, Repr

/-- A property warning as appended to
`FormalVerifier.results["security_warnings"]` by the per-property
exception handler (lines 237-243). -/
structure PropWarning where
  wtype : String
  severity : String
  description : String
  error : String
deriving DecidableEq, Repr

/-- The mutable verification state of one `FormalVerifier` session: the
solver constraint store and the result counters and lists the claims are
about. -/
structure FVState where
  constraints : List HSV.Constraint
  propertiesChecked : Nat
  violationsFound : Nat
  trojanFindings : List TrojanFinding
  securityWarnings : List PropWarning
deriving DecidableEq, Repr

/-- A fresh session (`FormalVerifier.__init__`: a fresh solver and
zeroed result record). -/
def fvInit : FVState := ⟨[], 0, 0, [], []⟩

/-- A loaded property after the dispatch of
`_verify_generic_properties` (lines 229-236, substring dispatch on the
raw text) and the regex destructuring and python evaluation inside each
branch: the quantified kinds carry the declared variable list and the
body, Implies carries both sides, and everything else is a plain
expression.  The Exists branch is not needed by any claim and is not
modeled. -/
inductive PropertySpec where
  | plainP (e : HSV.BExpr)
  | impliesP (ant cons : HSV.BExpr)
  | forallP (vars : List String) (body : HSV.BExpr)
deriving DecidableEq, Repr

/-- A property as loaded by `load_properties`: the raw text (used in
warning descriptions) together with its parsed form. -/
structure FVProperty where
  raw : String
  spec : PropertySpec
deriving DecidableEq, Repr

/-- The NameError message python eval raises for an identifier missing
from the variable mapping. -/
def nameErrorMsg (v : String) : String :=
  "name " ++ v ++ " is not defined"

/-- First unresolvable identifier of an expression under the variable
mapping (python eval fails on the first unknown name). -/
def firstUnknown (names : List String) (e : HSV.BExpr) : Option String :=
  (HSV.varsB e).find? fun v => !names.contains v

/-- One property check: `_verify_expression` (lines 303-311),
`_verify_implies` (285-301) and `_verify_forall` (245-263).  Each
successful check adds its constraint to the accumulated solver store,
checks satisfiability of the whole store, increments `violations_found`
exactly when the solver answers unsat (appending NO finding; the
violation is only printed), and resets the solver.  Failures (a ForAll
with no valid variables, an unresolvable identifier) are the embedded
python exceptions, raised before anything is added to the solver. -/
def verifyProp (names : List String) (st : FVState) :
    PropertySpec → Except String FVState
  | .plainP e =>
      match firstUnknown names e with
      | some v => .error (nameErrorMsg v)
      | none =>
          let cs := st.constraints ++ [HSV.Constraint.expr e]
          .ok { st with
                  constraints := [],
                  violationsFound :=
                    st.violationsFound + (if HSV.satDecide cs then 0 else 1) }
  | .impliesP a c =>
      match firstUnknown names a with
      | some v => .error (nameErrorMsg v)
      | none =>
          match firstUnknown names c with
          | some v => .error (nameErrorMsg v)
          | none =>
              let cs := st.constraints ++ [HSV.Constraint.expr (.impliesE a c)]
              .ok { st with
                      constraints := [],
                      violationsFound :=
                        st.violationsFound + (if HSV.satDecide cs then 0 else 1) }
  | .forallP vs body =>
      let valid := vs.filter fun v => names.contains v
      if valid.isEmpty then .error "No valid variables in ForAll"
      else
        match firstUnknown names body with
        | some v => .error (nameErrorMsg v)
        | none =>
            let cs := st.constraints ++ [HSV.Constraint.forallC valid body]
            .ok { st with
                    constraints := [],
                    violationsFound :=
                      st.violationsFound + (if HSV.satDecide cs then 0 else 1) }

/-- `_verify_generic_properties` (lines 224-243): per property, bump the
checked counter, run the check, and on an exception append a
medium-severity property_error warning and continue with the remaining
properties. -/
def verifyGeneric (names : List String) : List FVProperty → FVState → FVState
  | [], st => st
  | p :: rest, st =>
      let st1 := { st with propertiesChecked := st.propertiesChecked + 1 }
      match verifyProp names st1 p.spec with
      | .ok st2 => verifyGeneric names rest st2
      | .error msg =>
          verifyGeneric names rest
            { st1 with
                securityWarnings := st1.securityWarnings ++
                  [⟨"property_error", "medium",
                    "Failed to verify property: " ++ p.raw, msg⟩] }

/-- The rare-trigger constraint of `_verify_trojan_specific` (lines
319-322): both rare signals equal True, as one conjunction. -/
def rareCond : HSV.Constraint :=
  .expr (.andE (.eqE (.var "rare_signal1") (.lit true))
               (.eqE (.var "rare_signal2") (.lit true)))

/-- Check 1 of `_verify_trojan_specific` (lines 318-337): if both rare
signal names resolve, add the rare condition, and on a sat answer record
a critical rare_trigger finding whose evidence holds the model values of
the two signals, increment `violations_found`, and reset the solver. -/
def trojanCheck1 (names : List String) (st : FVState) : FVState :=
  if names.contains "rare_signal1" && names.contains "rare_signal2" then
    let cs := st.constraints ++ [rareCond]
    match HSV.firstSat cs with
    | some τ =>
        { st with
            constraints := [],
            violationsFound := st.violationsFound + 1,
            trojanFindings := st.trojanFindings ++
              [⟨"rare_trigger", "critical",
                "Rare signal combination activates Trojan",
                [("rare_signal1", HSV.envOf τ "rare_signal1"),
                 ("rare_signal2", HSV.envOf τ "rare_signal2")]⟩] }
    | none => { st with constraints := [] }
  else st

/-- `_verify_trojan_specific` (lines 313-354): the rare-trigger check,
then the key-leakage check.  The key-leakage check (lines 340-354) slices
bit-vector variables, which lies outside the boolean constraint fragment
in which every claim is settled; a session whose signal set contains both
ciphertext and key is therefore not modeled (`none`). -/
def fvTrojanSpecific (names : List String) (st : FVState) : Option FVState :=
  let st1 := trojanCheck1 names st
  if names.contains "ciphertext" && names.contains "key" then none
  else some st1

/-- `FormalVerifier.verify` for the phases the claims are about: the
generic property loop followed by the Trojan-specific checks, over the
z3 variables created from the signal names. -/
def fvVerify (names : List String) (props : List FVProperty) (st : FVState) :
    Option FVState :=
  fvTrojanSpecific names (verifyGeneric names props st)

/-- The violation-count contribution of one property when checked
against an empty accumulated store: 1 when the check runs and the solver
answers unsat, 0 when it answers sat or the check raises. -/
def propDelta (names : List String) : PropertySpec → Nat
  | .plainP e =>
      match firstUnknown names e with
      | some _ => 0
      | none => if HSV.satDecide [HSV.Constraint.expr e] then 0 else 1
  | .impliesP a c =>
      match firstUnknown names a with
      | some _ => 0
      | none =>
          match firstUnknown names c with
          | some _ => 0
          | none =>
              if HSV.satDecide [HSV.Constraint.expr (.impliesE a c)] then 0 else 1
  | .forallP vs body =>
      let valid := vs.filter fun v => names.contains v
      if valid.isEmpty then 0
      else
        match firstUnknown names body with
        | some _ => 0
        | none => if HSV.satDecide [HSV.Constraint.forallC valid body] then 0 else 1

/-- Total violation-count contribution of a property list. -/
def propUnsatTotal (names : List String) (props : List FVProperty) : Nat :=
  (props.map fun p => propDelta names p.spec).sum

/-- What one asserted-invariant check does to the session state, relative
to the constraint set it submitted to the solver: the violation counter
is incremented exactly when that set is unsatisfiable, NO finding of any
kind is appended (the violation is only printed), and the solver is
reset. -/
def checkOutcome (st st2 : FVState) (cs : List HSV.Constraint) : Prop :=
  (st2.violationsFound = st.violationsFound + 1 ↔ ¬ HSV.SatC cs) ∧
  (HSV.SatC cs → st2.violationsFound = st.violationsFound) ∧
  st2.trojanFindings = st.trojanFindings ∧
  st2.securityWarnings = st.securityWarnings ∧
  st2.constraints = []

end FV

namespace PCHB

/-- A value of the `PCHBVerifier.signals` dictionary: a single boolean
variable, or the 32-element data bus (a python list of variables). -/
inductive PCHBSignal where
  | single (v : String)
  | bus (vs : List String)
deriving DecidableEq, Repr

/-- The fixed signal table hard-coded in `load_design` (lines 49-59). -/
def pchbSignalTable : List (String × PCHBSignal) :=
  [("req", .single "req"),
   ("req_next", .single "req_next"),
   ("ack", .single "ack"),
   ("ack_next", .single "ack_next"),
   ("data", .bus ((List.range 32).map fun i => "data_" ++ toString i)),
   ("data_next", .bus ((List.range 32).map fun i => "data_next_" ++ toString i)),
   ("en", .single "en"),
   ("en_next", .single "en_next"),
   ("reset", .single "reset")]

/-- `PCHBVerifier.load_design` (lines 42-60): the design text is read
and then ignored; the signal table is always the fixed table above and
the solver is untouched. -/
def loadDesign (_content : String) : List (String × PCHBSignal) :=
  pchbSignalTable

/-- A Trojan detection record appended to
`results["trojan_detections"]`; the printed model is embedded as the
satisfying assignment found. -/
structure Detection where
  name : String
  dtype : String
  severity : String
  model : Option (List (String × Bool))
deriving DecidableEq, Repr

/-- The mutable state of one `PCHBVerifier` session: signal table,
solver constraint store, and the three result lists. -/
structure PCHBState where
  signals : List (String × PCHBSignal)
  constraints : List HSV.Constraint
  handshakeViolations : List String
  trojanDetections : List Detection
  timingViolations : List String
deriving DecidableEq, Repr

/-- A fresh `PCHBVerifier` (empty signals, fresh solver, empty result
lists). -/
def pchbInit : PCHBState := ⟨[], [], [], [], []⟩

/-- Loading a design into a session replaces the signal table and
nothing else. -/
def pchbLoad (content : String) (st : PCHBState) : PCHBState :=
  { st with signals := loadDesign content }

/-- The three handshake rules of `_verify_handshake` (lines 84-90),
added to the base solver scope in order. -/
def handshakeConstraints : List HSV.Constraint :=
  [.expr (.impliesE (.var "req") (.notE (.var "ack"))),
   .expr (.impliesE (.var "ack") (.eqE (.var "req_next") (.lit false))),
   .expr (.impliesE (.andE (.var "ack") (.eqE (.var "req") (.lit false)))
                    (.eqE (.var "ack_next") (.lit false)))]

/-- The 32 per-bit stability rules of `_verify_stability` (lines
104-105). -/
def stabilityConstraints : List HSV.Constraint :=
  (List.range 32).map fun i =>
    .expr (.impliesE (.var "en")
      (.eqE (.var ("data_" ++ toString i)) (.var ("data_next_" ++ toString i))))

/-- `_verify_handshake` (lines 78-95): add the three rules to the solver
(no push, no pop, no reset) and record one violation message exactly when
the accumulated store is unsatisfiable. -/
def verifyHandshake (st : PCHBState) : PCHBState :=
  let cs := st.constraints ++ handshakeConstraints
  { st with
      constraints := cs,
      handshakeViolations := st.handshakeViolations ++
        (if HSV.satDecide cs then [] else ["Handshake protocol violation detected"]) }

/-- `_verify_stability` (lines 97-110): add the 32 stability rules on
top of whatever the solver already holds (again no pop) and record one
timing violation exactly when the accumulated store is unsatisfiable. -/
def verifyStability (st : PCHBState) : PCHBState :=
  let cs := st.constraints ++ stabilityConstraints
  { st with
      constraints := cs,
      timingViolations := st.timingViolations ++
        (if HSV.satDecide cs then [] else ["Data stability violation during evaluation"]) }

/-- Flush the current word-character run as a token. -/
def flushAcc (acc : List Char) : List String :=
  if acc.isEmpty then [] else [⟨acc.reverse⟩]

/-- The tokenizer of `_pattern_to_z3` (line 140): `re.findall` of word
runs, double ampersand, double pipe, bang and parentheses; characters
matching nothing (whitespace, single ampersands, ...) are skipped. -/
def tokenizeAux (acc : List Char) : List Char → List String
  | [] => flushAcc acc
  | '&' :: '&' :: rest => flushAcc acc ++ "&&" :: tokenizeAux [] rest
  | '|' :: '|' :: rest => flushAcc acc ++ "||" :: tokenizeAux [] rest
  | '!' :: rest => flushAcc acc ++ "!" :: tokenizeAux [] rest
  | '(' :: rest => flushAcc acc ++ "(" :: tokenizeAux [] rest
  | ')' :: rest => flushAcc acc ++ ")" :: tokenizeAux [] rest
  | c :: rest =>
      if FV.isWordChar c then tokenizeAux (c :: acc) rest
      else flushAcc acc ++ tokenizeAux [] rest

def tokenize (s : String) : List String :=
  tokenizeAux [] s.data

/-- Operator precedence (line 145). -/
def precOf : String → Nat
  | "!" => 3
  | "&&" => 2
  | "||" => 1
  | _ => 0

/-- `_apply_operator` (lines 167-181) on the operand stack (top at the
head): bang negates the top, the binary operators combine the two top
operands; missing operands raise the embedded ValueError messages. -/
def applyOp (op : String) (stack : List HSV.BExpr) :
    Except String (List HSV.BExpr) :=
  if op = "!" then
    match stack with
    | [] => .error "Missing operand for ! operator"
    | e :: rest => .ok (.notE e :: rest)
  else if op = "&&" || op = "||" then
    match stack with
    | right :: left :: rest =>
        .ok ((if op = "&&" then HSV.BExpr.andE left right
              else HSV.BExpr.orE left right) :: rest)
    | _ => .error ("Missing operands for " ++ op ++ " operator")
  else .ok stack

/-- The closing-parenthesis loop (lines 152-155): pop and apply
operators until an opening parenthesis, then drop it; popping an empty
operator stack is the embedded IndexError. -/
def drainUntilParen : List String → List HSV.BExpr →
    Except String (List String × List HSV.BExpr)
  | [], _ => .error "pop from empty list"
  | "(" :: restOps, stack => .ok (restOps, stack)
  | op :: restOps, stack => do
      let s ← applyOp op stack
      drainUntilParen restOps s

/-- The precedence loop on seeing an operator token (lines 156-160):
apply stacked operators of greater-or-equal precedence, stopping at an
opening parenthesis. -/
def drainHigher (t : String) : List String → List HSV.BExpr →
    Except String (List String × List HSV.BExpr)
  | [], stack => .ok ([], stack)
  | op :: restOps, stack =>
      if op = "(" then .ok (op :: restOps, stack)
      else if precOf t ≤ precOf op then do
        let s ← applyOp op stack
        drainHigher t restOps s
      else .ok (op :: restOps, stack)

/-- The final drain (lines 162-163): apply every remaining stacked
token; a leftover opening parenthesis matches no branch of
`_apply_operator` and is a no-op. -/
def finalDrain : List String → List HSV.BExpr →
    Except String (List HSV.BExpr)
  | [], stack => .ok stack
  | op :: restOps, stack => do
      let s ← applyOp op stack
      finalDrain restOps s

/-- The boolean-variable entries of the `PCHBVerifier.signals`
dictionary, as the z3 expressions pushed for recognized tokens.  The
dictionary additionally maps data and data_next to python LISTS of
variables; a pattern naming those pushes a list onto the operand stack,
which lies outside the boolean fragment needed by the claims and is not
modeled (no claimed pattern references them). -/
def pchbPatternSignals : List (String × HSV.BExpr) :=
  [("req", .var "req"), ("req_next", .var "req_next"),
   ("ack", .var "ack"), ("ack_next", .var "ack_next"),
   ("en", .var "en"), ("en_next", .var "en_next"),
   ("reset", .var "reset")]

/-- The token loop of `_pattern_to_z3` (lines 147-160): recognized
signal tokens are pushed, parentheses and operators drive the two-stack
shunting reduction, and any other token is silently skipped. -/
def shunt : List String → List String → List HSV.BExpr →
    Except String (Option HSV.BExpr)
  | [], ops, stack => do
      let s ← finalDrain ops stack
      .ok s.getLast?
  | t :: rest, ops, stack =>
      match pchbPatternSignals.lookup t with
      | some e => shunt rest ops (e :: stack)
      | none =>
          if t = "(" then shunt rest ("(" :: ops) stack
          else if t = ")" then do
            let (ops2, s2) ← drainUntilParen ops stack
            shunt rest ops2 s2
          else if t = "!" || t = "&&" || t = "||" then do
            let (ops2, s2) ← drainHigher t ops stack
            shunt rest (t :: ops2) s2
          else shunt rest ops stack

/-- `_pattern_to_z3` (lines 134-165): an empty pattern yields no
constraint; otherwise tokenize and reduce; the bottom of the operand
stack (`stack[0]`) is returned, `none` when the stack is empty.
Exceptions escape to the caller. -/
def patternToZ3 (logic : String) : Except String (Option HSV.BExpr) :=
  if logic = "" then .ok none
  else shunt (tokenize logic) [] []

/-- A Trojan pattern entry of the properties file. -/
structure TrojanPattern where
  name : String
  ptype : String
  severity : String
  logic : String
deriving DecidableEq, Repr

/-- `_detect_trojans` (lines 112-132): per pattern, build the
constraint; on an exception print and CONTINUE (nothing is recorded in
the results); a `None` constraint is skipped; otherwise push a scope,
add the constraint, record a detection with the model when the
accumulated store is satisfiable, and pop the scope (so the base
constraints are restored, but were included in the check). -/
def detectTrojans : List TrojanPattern → PCHBState → PCHBState
  | [], st => st
  | p :: rest, st =>
      match patternToZ3 p.logic with
      | .error _ => detectTrojans rest st
      | .ok none => detectTrojans rest st
      | .ok (some c) =>
          let cs := st.constraints ++ [HSV.Constraint.expr c]
          if HSV.satDecide cs then
            detectTrojans rest
              { st with trojanDetections := st.trojanDetections ++
                  [⟨p.name, p.ptype, p.severity, HSV.firstSat cs⟩] }
          else detectTrojans rest st

end PCHB

-- ## Proofs

theorem restrictEnv_mem (f : String → Bool) :
    ∀ vs : List String, restrictEnv f vs ∈ boolAssignments vs := by
  intro vs
  induction vs with
  | nil => simp [restrictEnv, boolAssignments]
  | cons v vs ih =>
      simp only [restrictEnv, List.map_cons, boolAssignments, List.mem_flatMap]
      refine ⟨restrictEnv f vs, ih, ?_⟩
      cases h : f v <;> simp [restrictEnv, h]

theorem lookup_restrictEnv (f : String → Bool) (vs : List String) (n : String) :
    (restrictEnv f vs).lookup n = if n ∈ vs then some (f n) else none := by
  induction vs with
  | nil => simp [restrictEnv]
  | cons v vs ih =>
      by_cases h : n = v
      · subst h; simp [restrictEnv, List.lookup]
      · have hb : (n == v) = false := by simp [h]
        simp only [restrictEnv, List.map_cons, List.lookup, hb]
        simp only [restrictEnv] at ih
        rw [ih]
        by_cases hm : n ∈ vs
        · simp [hm, h]
        · simp [hm, h]

theorem envOf_restrictEnv (f : String → Bool) (vs : List String) (n : String)
    (h : n ∈ vs) : envOf (restrictEnv f vs) n = f n := by
  simp [envOf, lookup_restrictEnv, h]

theorem lookup_isSome_of_mem_boolAssignments :
    ∀ (vs : List String) (τ : List (String × Bool)), τ ∈ boolAssignments vs →
      ∀ n, (τ.lookup n).isSome = true ↔ n ∈ vs := by
  intro vs
  induction vs with
  | nil =>
      intro τ hτ n
      simp [boolAssignments] at hτ
      subst hτ
      simp [List.lookup]
  | cons v vs ih =>
      intro τ hτ n
      simp only [boolAssignments, List.mem_flatMap] at hτ
      obtain ⟨σ, hσ, hmem⟩ := hτ
      have hcase : τ = (v, true) :: σ ∨ τ = (v, false) :: σ := by
        simpa using hmem
      rcases hcase with h | h <;> subst h <;>
        · simp only [List.lookup, List.mem_cons]
          by_cases hv : n = v
          · simp [hv]
          · have : (n == v) = false := by simp [hv]
            simp [this, ih σ hσ n, hv]

theorem list_all_congr {α : Type} (xs : List α) (f g : α → Bool)
    (hfg : ∀ x, x ∈ xs → f x = g x) : xs.all f = xs.all g := by
  induction xs with
  | nil => rfl
  | cons y ys ihy =>
      simp only [List.all_cons]
      rw [hfg y (List.mem_cons_self y ys),
          ihy fun z hz => hfg z (List.mem_cons_of_mem y hz)]

/-- Evaluation depends only on the variables occurring in the
expression. -/
theorem evalB_congr (f g : String → Bool) :
    ∀ e : BExpr, (∀ n ∈ varsB e, f n = g n) → evalB f e = evalB g e := by
  intro e
  induction e with
  | var n => intro h; exact h n (by simp [varsB])
  | lit b => intro _; rfl
  | notE e ih => intro h; simp [evalB, ih fun n hn => h n (by simpa [varsB] using hn)]
  | andE a b iha ihb =>
      intro h
      simp only [evalB]
      rw [iha fun n hn => h n (by simp [varsB, hn]),
          ihb fun n hn => h n (by simp [varsB, hn])]
  | orE a b iha ihb =>
      intro h
      simp only [evalB]
      rw [iha fun n hn => h n (by simp [varsB, hn]),
          ihb fun n hn => h n (by simp [varsB, hn])]
  | impliesE a b iha ihb =>
      intro h
      simp only [evalB]
      rw [iha fun n hn => h n (by simp [varsB, hn]),
          ihb fun n hn => h n (by simp [varsB, hn])]
  | eqE a b iha ihb =>
      intro h
      simp only [evalB]
      rw [iha fun n hn => h n (by simp [varsB, hn]),
          ihb fun n hn => h n (by simp [varsB, hn])]

/-- Constraint satisfaction depends only on the free variables of the
constraint. -/
theorem holdsC_congr (f g : String → Bool) (c : Constraint)
    (h : ∀ n ∈ varsC c, f n = g n) : holdsC f c = holdsC g c := by
  cases c with
  | expr e => exact evalB_congr f g e (by simpa [varsC] using h)
  | forallC vs body =>
      simp only [holdsC]
      refine list_all_congr _ _ _ ?_
      intro τ hτ
      refine evalB_congr (overrideEnv f τ) (overrideEnv g τ) body ?_
      intro n hn
      simp only [overrideEnv]
      cases hl : τ.lookup n with
      | some b => rfl
      | none =>
          have hns : ¬ n ∈ vs := by
            rw [← lookup_isSome_of_mem_boolAssignments vs τ hτ n, hl]
            simp
          exact h n (by simp [varsC, hn, hns])

/-- The computable solver answer agrees with propositional
satisfiability: `solver.check()` returns `sat` exactly when some
assignment satisfies every accumulated constraint. -/
theorem satDecide_iff (cs : List Constraint) : satDecide cs = true ↔ SatC cs := by
  constructor
  · intro h
    simp only [satDecide, Option.isSome_iff_exists] at h
    obtain ⟨τ, hτ⟩ := h
    have h2 := List.find?_some hτ
    exact ⟨envOf τ, h2⟩
  · rintro ⟨f, hf⟩
    simp only [satDecide, firstSat]
    rw [List.find?_isSome]
    refine ⟨restrictEnv f (varsCs cs), restrictEnv_mem f (varsCs cs), ?_⟩
    simp only [holdsAll, List.all_eq_true] at hf ⊢
    intro c hc
    rw [holdsC_congr (envOf (restrictEnv f (varsCs cs))) f c ?_]
    · exact hf c hc
    · intro n hn
      exact envOf_restrictEnv f (varsCs cs) n (by simp [varsCs, List.mem_flatMap]; exact ⟨c, hc, hn⟩)

theorem satDecide_eq_false_iff (cs : List Constraint) :
    satDecide cs = false ↔ ¬ SatC cs := by
  rw [← satDecide_iff]
  cases satDecide cs <;> simp

/-- A found model satisfies every constraint of the set it was asked
about (the guarantee z3 gives for `solver.model()` after `sat`). -/
theorem firstSat_sound (cs : List Constraint) (τ : List (String × Bool))
    (h : firstSat cs = some τ) : holdsAll (envOf τ) cs = true := by
  have h2 := List.find?_some h
  exact h2

-- ### Shared helper lemmas

/-- A successful check updates the state exactly as `checkOutcome`
records, for any submitted constraint set. -/
theorem checkOutcome_mk (st : FV.FVState) (c : Constraint) :
    FV.checkOutcome st
      { st with constraints := [],
                violationsFound :=
                  st.violationsFound + (if satDecide (st.constraints ++ [c]) then 0 else 1) }
      (st.constraints ++ [c]) := by
  cases h : satDecide (st.constraints ++ [c]) with
  | true =>
      have hsat : SatC (st.constraints ++ [c]) := (satDecide_iff _).mp h
      refine ⟨?_, fun _ => by simp [h], rfl, rfl, rfl⟩
      simp only [FV.checkOutcome, h, if_true]
      constructor
      · intro he; omega
      · intro hns; exact absurd hsat hns
  | false =>
      have hns : ¬ SatC (st.constraints ++ [c]) := (satDecide_eq_false_iff _).mp h
      refine ⟨?_, fun hs => absurd hs hns, rfl, rfl, rfl⟩
      simp [h, hns]

/-- `_detect_trojans` pops every scope it pushes: the constraint store
is exactly what it was before the pattern loop ran. -/
theorem detectTrojans_constraints :
    ∀ (ps : List PCHB.TrojanPattern) (st : PCHB.PCHBState),
      (PCHB.detectTrojans ps st).constraints = st.constraints := by
  intro ps
  induction ps with
  | nil => intro st; rfl
  | cons p rest ih =>
      intro st
      simp only [PCHB.detectTrojans]
      cases PCHB.patternToZ3 p.logic with
      | error msg => exact ih st
      | ok oc =>
          cases oc with
          | none => exact ih st
          | some c =>
              simp only
              split
              · rw [ih]
              · rw [ih]

-- ### Claim theorems

/-- C10: `load_design` yields the same fixed signal table — req, ack, en,
reset with paired next variables (no next for reset) and a 32-bit data
bus with paired next bits — independent of the design text; two runs on
any two design texts produce identical tables. -/
theorem c10_load_design_ignores_content (s t : String) :
    PCHB.loadDesign s = PCHB.loadDesign t ∧ PCHB.loadDesign s = PCHB.pchbSignalTable :=
  ⟨rfl, rfl⟩

/-- C5 (amended): for EVERY design text — in particular one tying req
and ack to the same wire — the handshake check flags NO
handshake_violation: `load_design` never encodes the design content into
constraints, and the three handshake rules alone are satisfiable (all
signals deasserted), as they remain even with req = ack added, so under
the unsat-means-violation polarity nothing is appended. -/
theorem c5_handshake_never_flags (design : String) :
    (PCHB.verifyHandshake (PCHB.pchbLoad design PCHB.pchbInit)).handshakeViolations = []
    ∧ satDecide (PCHB.handshakeConstraints ++
        [Constraint.expr (.eqE (.var "req") (.var "ack"))]) = true := by
  constructor
  · have h : satDecide PCHB.handshakeConstraints = true := by decide
    simp [PCHB.verifyHandshake, PCHB.pchbLoad, PCHB.pchbInit, h]
  · decide

/-- C5 counterexample: on the concrete design that ties req and ack to
the same wire, the handshake rule group records no handshake_violation,
contrary to the claim that it must be flagged. -/
theorem c5_counterexample :
    (PCHB.verifyHandshake (PCHB.pchbLoad
        "module tied(input req, output ack); assign ack = req; endmodule"
        PCHB.pchbInit)).handshakeViolations = [] := by
  have h : satDecide PCHB.handshakeConstraints = true := by decide
  simp [PCHB.verifyHandshake, PCHB.pchbLoad, PCHB.pchbInit, h]

/-- C3: extracting the module ports of a design with port list
`input clk, input [7:0] data, output done` yields three signals with
kinds input, input, output — but ALL of width 1: `_parse_width` is
start-anchored and is handed the whole port text (which begins with the
direction keyword), so the range is never seen on the port path, while
the same helper applied to the bare range text 7:0 (as the register path
does) yields 8. -/
theorem c3_port_width_bug :
    FV.extractModuleIO
        "module top(input clk, input [7:0] data, output done);\nendmodule".data
      = some [("clk", ⟨"input", 1, "normal"⟩),
              ("data", ⟨"input", 1, "normal"⟩),
              ("done", ⟨"output", 1, "normal"⟩)]
    ∧ FV.parseWidthStr "7:0" = 8
    ∧ FV.parseWidthStr "input [7:0] data" = 1 := by
  refine ⟨by decide, by decide, by decide⟩

/-- Membership of the rare-condition warning in the pre-scan output is
exactly the signature test on the text handed to the pre-scan. -/
theorem mem_detectSuspicious_rare (content : String) :
    FV.rareConditionFinding ∈ FV.detectSuspiciousPatterns content ↔
      FV.hasRareCondition content = true := by
  unfold FV.detectSuspiciousPatterns
  cases h1 : FV.hasRareCondition content <;>
    cases h2 : FV.hasKeyLeakage content <;>
      cases h3 : FV.hasHiddenState content <;>
        simp [FV.rareConditionFinding, FV.keyLeakageFinding, FV.hiddenStateFinding]

/-- C4 (amended): the Trojan-signature pre-scan runs over the RAW design
text, before comment stripping — `parse` calls
`_detect_suspicious_patterns` on the unmodified content and only then
`_remove_comments` — so a signature that occurs only inside a comment
still produces a pre-scan Finding.  The rare-condition warning is
present exactly when the signature occurs in the raw text. -/
theorem c4_prescan_on_raw_text (content : String) :
    FV.rareConditionFinding ∈ (FV.fvParse content).warnings ↔
      FV.hasRareCondition content = true := by
  unfold FV.fvParse
  cases h : FV.extractModuleIO (FV.removeComments content).data with
  | none =>
      simp only [h]
      rw [List.mem_append]
      have hne : ¬ FV.rareConditionFinding ∈ [FV.parseErrorFinding] := by decide
      rw [or_iff_left hne]
      exact mem_detectSuspicious_rare content
  | some sigs =>
      simp only [h]
      exact mem_detectSuspicious_rare content

/-- C4 counterexample: a design whose rare-condition signature occurs
only inside a line comment (the comment-stripped text no longer matches
the signature) still gets a rare_condition pre-scan Finding, refuting
the claim that such a design never produces one. -/
theorem c4_counterexample :
    FV.rareConditionFinding ∈
      (FV.fvParse "// rare_signal1 && rare_signal2\nmodule top(input clk);\nendmodule").warnings
    ∧ FV.hasRareCondition
        (FV.removeComments "// rare_signal1 && rare_signal2\nmodule top(input clk);\nendmodule")
      = false := by
  refine ⟨by decide, by decide⟩

/-- C1 (amended): for every asserted-invariant property kind (plain
expression, Implies, ForAll) the evaluator adds the property itself as a
constraint, checks satisfiability of the whole accumulated constraint
set, and increments the violation count exactly when the solver answers
unsatisfiable — but it appends NO property_violation finding (no finding
of any kind is recorded for a property violation; the trojan findings and
warnings lists are untouched). -/
theorem c1_asserted_invariant_polarity (names : List String) (st : FV.FVState) :
    (∀ (e : BExpr) (st2 : FV.FVState),
        FV.verifyProp names st (.plainP e) = .ok st2 →
          FV.checkOutcome st st2 (st.constraints ++ [Constraint.expr e]))
    ∧ (∀ (a c : BExpr) (st2 : FV.FVState),
        FV.verifyProp names st (.impliesP a c) = .ok st2 →
          FV.checkOutcome st st2 (st.constraints ++ [Constraint.expr (.impliesE a c)]))
    ∧ (∀ (vs : List String) (body : BExpr) (st2 : FV.FVState),
        FV.verifyProp names st (.forallP vs body) = .ok st2 →
          FV.checkOutcome st st2
            (st.constraints ++
              [Constraint.forallC (vs.filter fun v => names.contains v) body])) := by
  refine ⟨?_, ?_, ?_⟩
  · intro e st2 h
    simp only [FV.verifyProp] at h
    cases hf : FV.firstUnknown names e with
    | some v => exact Except.noConfusion (by simp only [hf] at h; exact h)
    | none =>
        simp only [hf, Except.ok.injEq] at h
        rw [← h]
        exact checkOutcome_mk st (Constraint.expr e)
  · intro a c st2 h
    simp only [FV.verifyProp] at h
    cases hf : FV.firstUnknown names a with
    | some v => exact Except.noConfusion (by simp only [hf] at h; exact h)
    | none =>
        cases hg : FV.firstUnknown names c with
        | some v => exact Except.noConfusion (by simp only [hf, hg] at h; exact h)
        | none =>
            simp only [hf, hg, Except.ok.injEq] at h
            rw [← h]
            exact checkOutcome_mk st (Constraint.expr (.impliesE a c))
  · intro vs body st2 h
    simp only [FV.verifyProp] at h
    cases hv : (vs.filter fun v => names.contains v).isEmpty with
    | true => exact Except.noConfusion (by simp only [hv, if_true] at h; exact h)
    | false =>
        simp only [hv, Bool.false_eq_true, if_false] at h
        cases hf : FV.firstUnknown names body with
        | some v => exact Except.noConfusion (by simp only [hf] at h; exact h)
        | none =>
            simp only [hf, Except.ok.injEq] at h
            rw [← h]
            exact checkOutcome_mk st
              (Constraint.forallC (vs.filter fun v => names.contains v) body)

/-- C1 witness: the theorem applied to a satisfiable concrete property
in a fresh session. -/
theorem c1_witness :
    FV.checkOutcome FV.fvInit FV.fvInit [Constraint.expr (.var "x")] :=
  (c1_asserted_invariant_polarity ["x"] FV.fvInit).1 (.var "x") FV.fvInit (by decide)

/-- C1 counterexample: checking the unsatisfiable plain property
`x && !x` increments violations_found to 1 yet records NO finding — the
trojan findings and security warnings of the result are both empty, so
no property_violation Finding is appended anywhere. -/
theorem c1_counterexample :
    FV.verifyProp ["x"] FV.fvInit (.plainP (.andE (.var "x") (.notE (.var "x")))) =
      .ok ⟨[], 0, 1, [], []⟩ := by decide

/-- C8: a ForAll property whose entire variable list names signals
absent from the current signal set raises the no-valid-variables error,
which is caught and recorded as a medium-severity property_error warning
(carrying the raised message), and evaluation continues with the
remaining properties on the otherwise unchanged state. -/
theorem c8_forall_no_valid_vars (raw : String) (vs : List String) (body : BExpr)
    (rest : List FV.FVProperty) (names : List String) (st : FV.FVState)
    (h : vs.filter (fun v => names.contains v) = []) :
    FV.verifyGeneric names (⟨raw, .forallP vs body⟩ :: rest) st =
      FV.verifyGeneric names rest
        { st with propertiesChecked := st.propertiesChecked + 1,
                  securityWarnings := st.securityWarnings ++
                    [⟨"property_error", "medium",
                      "Failed to verify property: " ++ raw,
                      "No valid variables in ForAll"⟩] } := by
  simp only [FV.verifyGeneric, FV.verifyProp, h]
  rfl

/-- C8 witness: a concrete ForAll over an unknown variable in a fresh
session yields exactly the medium property warning and a checked count
of one, with no violation and no finding. -/
theorem c8_witness :
    FV.verifyGeneric ["x"] [⟨"ForAll([zz], zz)", .forallP ["zz"] (.var "zz")⟩]
        FV.fvInit =
      ⟨[], 1, 0, [],
        [⟨"property_error", "medium",
          "Failed to verify property: ForAll([zz], zz)",
          "No valid variables in ForAll"⟩]⟩ := by
  rw [c8_forall_no_valid_vars "ForAll([zz], zz)" ["zz"] (.var "zz") [] ["x"]
        FV.fvInit (by decide)]
  rfl

/-- C6: when the model contains both rare signals and no accumulated
constraint forbids both being true, the Trojan-specific layer appends a
critical rare_trigger finding whose evidence records rare_signal1 = true
and rare_signal2 = true, and increments the violation count. -/
theorem c6_rare_trigger_witnessed (names : List String) (st : FV.FVState)
    (h1 : names.contains "rare_signal1" = true)
    (h2 : names.contains "rare_signal2" = true)
    (h3 : SatC (st.constraints ++ [FV.rareCond])) :
    FV.trojanCheck1 names st =
      { st with constraints := [],
                violationsFound := st.violationsFound + 1,
                trojanFindings := st.trojanFindings ++
                  [⟨"rare_trigger", "critical",
                    "Rare signal combination activates Trojan",
                    [("rare_signal1", true), ("rare_signal2", true)]⟩] } := by
  unfold FV.trojanCheck1
  have hsd : satDecide (st.constraints ++ [FV.rareCond]) = true := (satDecide_iff _).mpr h3
  obtain ⟨τ, hτ⟩ := Option.isSome_iff_exists.mp hsd
  have hall := firstSat_sound _ τ hτ
  have hr : holdsC (envOf τ) FV.rareCond = true := by
    have := (List.all_eq_true.mp hall) FV.rareCond (by simp)
    exact this
  simp only [FV.rareCond, holdsC, evalB, Bool.and_eq_true, beq_iff_eq] at hr
  simp only [h1, h2, Bool.and_self, if_true, hτ, hr.1, hr.2]

/-- C6 witness: the theorem applied to a fresh session whose signal set
is exactly the two rare signals. -/
theorem c6_witness :
    FV.trojanCheck1 ["rare_signal1", "rare_signal2"] FV.fvInit =
      ⟨[], 0, 1,
        [⟨"rare_trigger", "critical", "Rare signal combination activates Trojan",
          [("rare_signal1", true), ("rare_signal2", true)]⟩], []⟩ :=
  c6_rare_trigger_witnessed ["rare_signal1", "rare_signal2"] FV.fvInit
    (by decide) (by decide) ⟨fun _ => true, rfl⟩

/-- C7 (amended): a Trojan pattern whose expression is malformed
(missing operands or unbalanced parentheses) raises an error that
`_detect_trojans` catches: the pattern is skipped, NOTHING is recorded
in the session result (no parse finding of any severity), and the
remaining patterns are processed unchanged. -/
theorem c7_malformed_pattern_skipped (p : PCHB.TrojanPattern)
    (rest : List PCHB.TrojanPattern) (st : PCHB.PCHBState) (msg : String)
    (h : PCHB.patternToZ3 p.logic = .error msg) :
    PCHB.detectTrojans (p :: rest) st = PCHB.detectTrojans rest st := by
  simp only [PCHB.detectTrojans]
  rw [h]

/-- C7 witness: the missing-operand pattern `req &&` raises the embedded
ValueError and is skipped, leaving a fresh session state unchanged. -/
theorem c7_witness :
    PCHB.patternToZ3 "req &&" = .error "Missing operands for && operator"
    ∧ PCHB.detectTrojans [⟨"bad", "combinational", "high", "req &&"⟩]
        PCHB.pchbInit = PCHB.pchbInit := by
  refine ⟨by decide, ?_⟩
  rw [c7_malformed_pattern_skipped ⟨"bad", "combinational", "high", "req &&"⟩ []
        PCHB.pchbInit "Missing operands for && operator" (by decide)]
  rfl

/-- C7 counterexample: an unbalanced-parenthesis pattern raises the
pop-from-empty error, yet the session result after processing it is
bit-for-bit the initial result — no medium-severity parse Finding (nor
any other record) is appended, refuting the claim. -/
theorem c7_counterexample :
    PCHB.patternToZ3 ")" = .error "pop from empty list"
    ∧ PCHB.detectTrojans [⟨"bad2", "combinational", "high", ")"⟩]
        PCHB.pchbInit = PCHB.pchbInit := by
  refine ⟨by decide, by decide⟩

/-- C2 (amended): in the PCHB verifier the handshake and stability
constraints are added to the base solver scope and never removed — after
the two protocol checks the store holds both rule groups on top of
whatever was there — while only the Trojan pattern loop is scoped with
push/pop (it restores the constraint store it started from, but each
pattern check is evaluated on top of the accumulated base constraints).
So the outcome of one check CAN depend on constraints of an earlier check. -/
theorem c2_constraint_scoping (st : PCHB.PCHBState) (ps : List PCHB.TrojanPattern) :
    (PCHB.verifyHandshake st).constraints = st.constraints ++ PCHB.handshakeConstraints
    ∧ (PCHB.verifyStability (PCHB.verifyHandshake st)).constraints =
        (st.constraints ++ PCHB.handshakeConstraints) ++ PCHB.stabilityConstraints
    ∧ (PCHB.detectTrojans ps st).constraints = st.constraints :=
  ⟨rfl, rfl, detectTrojans_constraints ps st⟩

/-- C2 counterexample: the pattern `req && ack` is satisfiable on its
own, yet when its check runs after the handshake and stability checks of
one session it reports NO detection — the handshake rule `req implies
not ack` leaked into its scope and made the query unsatisfiable.  A
outcome of a later check thus depends on constraints of an earlier check,
refuting the claim. -/
theorem c2_counterexample :
    satDecide [Constraint.expr (.andE (.var "req") (.var "ack"))] = true
    ∧ (PCHB.detectTrojans [⟨"co", "combinational", "high", "req && ack"⟩]
        (PCHB.verifyStability (PCHB.verifyHandshake PCHB.pchbInit))).trojanDetections
        = [] := by
  constructor
  · decide
  · have h1 : satDecide PCHB.handshakeConstraints = true := by decide
    have h2 : satDecide (PCHB.handshakeConstraints ++ PCHB.stabilityConstraints) = true :=
      (satDecide_iff _).mpr ⟨fun _ => false, rfl⟩
    have hbase : PCHB.verifyStability (PCHB.verifyHandshake PCHB.pchbInit) =
        ⟨[], PCHB.handshakeConstraints ++ PCHB.stabilityConstraints, [], [], []⟩ := by
      simp [PCHB.verifyStability, PCHB.verifyHandshake, PCHB.pchbInit, h1, h2]
    rw [hbase]
    have hp : PCHB.patternToZ3 "req && ack" =
        .ok (some (.andE (.var "req") (.var "ack"))) := by decide
    have hunsat : satDecide ((PCHB.handshakeConstraints ++ PCHB.stabilityConstraints) ++
        [Constraint.expr (.andE (.var "req") (.var "ack"))]) = false := by
      rw [satDecide_eq_false_iff]
      rintro ⟨f, hf⟩
      have hmem1 : Constraint.expr (.impliesE (.var "req") (.notE (.var "ack"))) ∈
          ((PCHB.handshakeConstraints ++ PCHB.stabilityConstraints) ++
            [Constraint.expr (.andE (.var "req") (.var "ack"))]) := by
        simp [PCHB.handshakeConstraints]
      have hmem2 : Constraint.expr (.andE (.var "req") (.var "ack")) ∈
          ((PCHB.handshakeConstraints ++ PCHB.stabilityConstraints) ++
            [Constraint.expr (.andE (.var "req") (.var "ack"))]) := by
        simp
      have e1 := (List.all_eq_true.mp hf) _ hmem1
      have e2 := (List.all_eq_true.mp hf) _ hmem2
      simp only [holdsC, evalB, Bool.and_eq_true] at e1 e2
      rw [e2.1, e2.2] at e1
      simp at e1
    simp only [PCHB.detectTrojans, hp, hunsat, Bool.false_eq_true, if_false]

-- C9 helper lemmas

/-- Effect of one property check on the counters, against an empty
accumulated store. -/
theorem verifyProp_delta (names : List String) (st : FV.FVState)
    (p : FV.PropertySpec) (hc : st.constraints = []) :
    (∀ st2, FV.verifyProp names st p = .ok st2 →
        st2.violationsFound = st.violationsFound + FV.propDelta names p
        ∧ st2.trojanFindings = st.trojanFindings
        ∧ st2.constraints = [])
    ∧ (∀ msg, FV.verifyProp names st p = .error msg → FV.propDelta names p = 0) := by
  cases p with
  | plainP e =>
      constructor
      · intro st2 h
        simp only [FV.verifyProp] at h
        cases hf : FV.firstUnknown names e with
        | some v => exact Except.noConfusion (by simp only [hf] at h; exact h)
        | none =>
            simp only [hf, Except.ok.injEq] at h
            rw [← h]
            refine ⟨?_, rfl, rfl⟩
            simp only [FV.propDelta, hf, hc, List.nil_append]
      · intro msg h
        simp only [FV.verifyProp] at h
        cases hf : FV.firstUnknown names e with
        | some v => simp only [FV.propDelta, hf]
        | none => exact Except.noConfusion (by simp only [hf] at h; exact h)
  | impliesP a c =>
      constructor
      · intro st2 h
        simp only [FV.verifyProp] at h
        cases hf : FV.firstUnknown names a with
        | some v => exact Except.noConfusion (by simp only [hf] at h; exact h)
        | none =>
            cases hg : FV.firstUnknown names c with
            | some v => exact Except.noConfusion (by simp only [hf, hg] at h; exact h)
            | none =>
                simp only [hf, hg, Except.ok.injEq] at h
                rw [← h]
                refine ⟨?_, rfl, rfl⟩
                simp only [FV.propDelta, hf, hg, hc, List.nil_append]
      · intro msg h
        simp only [FV.verifyProp] at h
        cases hf : FV.firstUnknown names a with
        | some v => simp only [FV.propDelta, hf]
        | none =>
            cases hg : FV.firstUnknown names c with
            | some v => simp only [FV.propDelta, hf, hg]
            | none => exact Except.noConfusion (by simp only [hf, hg] at h; exact h)
  | forallP vs body =>
      constructor
      · intro st2 h
        simp only [FV.verifyProp] at h
        cases hv : (vs.filter fun v => names.contains v).isEmpty with
        | true => exact Except.noConfusion (by simp only [hv, if_true] at h; exact h)
        | false =>
            cases hf : FV.firstUnknown names body with
            | some v =>
                exact Except.noConfusion
                  (by simp only [hv, Bool.false_eq_true, if_false, hf] at h; exact h)
            | none =>
                simp only [hv, Bool.false_eq_true, if_false, hf, Except.ok.injEq] at h
                rw [← h]
                refine ⟨?_, rfl, rfl⟩
                simp only [FV.propDelta, hv, Bool.false_eq_true, if_false, hf, hc,
                  List.nil_append]
      · intro msg h
        simp only [FV.verifyProp] at h
        cases hv : (vs.filter fun v => names.contains v).isEmpty with
        | true => simp only [FV.propDelta, hv, if_true]
        | false =>
            cases hf : FV.firstUnknown names body with
            | some v => simp only [FV.propDelta, hv, Bool.false_eq_true, if_false, hf]
            | none =>
                exact Except.noConfusion
                  (by simp only [hv, Bool.false_eq_true, if_false, hf] at h; exact h)

/-- Branch equation: a successful property check hands the loop the
updated state. -/
theorem verifyGeneric_cons_ok (names : List String) (p : FV.FVProperty)
    (rest : List FV.FVProperty) (st st2 : FV.FVState)
    (h : FV.verifyProp names
        { st with propertiesChecked := st.propertiesChecked + 1 } p.spec = .ok st2) :
    FV.verifyGeneric names (p :: rest) st = FV.verifyGeneric names rest st2 := by
  simp only [FV.verifyGeneric, h]

/-- Branch equation: a failing property check appends the warning and
continues. -/
theorem verifyGeneric_cons_error (names : List String) (p : FV.FVProperty)
    (rest : List FV.FVProperty) (st : FV.FVState) (msg : String)
    (h : FV.verifyProp names
        { st with propertiesChecked := st.propertiesChecked + 1 } p.spec = .error msg) :
    FV.verifyGeneric names (p :: rest) st = FV.verifyGeneric names rest
      { st with
          propertiesChecked := st.propertiesChecked + 1,
          securityWarnings := st.securityWarnings ++
            [⟨"property_error", "medium",
              "Failed to verify property: " ++ p.raw, msg⟩] } := by
  simp only [FV.verifyGeneric, h]

/-- Counter bookkeeping of the whole generic-property loop: starting
from an empty store, the violation counter grows by exactly the per-
property unsat total, the trojan findings are untouched, and the store
ends empty. -/
theorem verifyGeneric_count (names : List String) :
    ∀ (props : List FV.FVProperty) (st : FV.FVState), st.constraints = [] →
      (FV.verifyGeneric names props st).violationsFound =
          st.violationsFound + FV.propUnsatTotal names props
      ∧ (FV.verifyGeneric names props st).trojanFindings = st.trojanFindings
      ∧ (FV.verifyGeneric names props st).constraints = [] := by
  intro props
  induction props with
  | nil =>
      intro st hc
      refine ⟨?_, rfl, hc⟩
      simp [FV.verifyGeneric, FV.propUnsatTotal]
  | cons p rest ih =>
      intro st hc
      have hst1 : (({ st with propertiesChecked := st.propertiesChecked + 1 } :
          FV.FVState)).constraints = [] := hc
      cases hv : FV.verifyProp names
          { st with propertiesChecked := st.propertiesChecked + 1 } p.spec with
      | ok st2 =>
          rw [verifyGeneric_cons_ok names p rest st st2 hv]
          obtain ⟨hv1, hv2, hv3⟩ :=
            (verifyProp_delta names _ p.spec hst1).1 st2 hv
          obtain ⟨i1, i2, i3⟩ := ih st2 hv3
          refine ⟨?_, ?_, i3⟩
          · rw [i1, hv1]
            simp only [FV.propUnsatTotal, List.map_cons, List.sum_cons]
            omega
          · rw [i2, hv2]
      | error msg =>
          rw [verifyGeneric_cons_error names p rest st msg hv]
          have hd0 := (verifyProp_delta names _ p.spec hst1).2 msg hv
          obtain ⟨i1, i2, i3⟩ := ih
            { st with
                propertiesChecked := st.propertiesChecked + 1,
                securityWarnings := st.securityWarnings ++
                  [⟨"property_error", "medium",
                    "Failed to verify property: " ++ p.raw, msg⟩] } hc
          refine ⟨?_, i2, i3⟩
          rw [i1]
          simp only [FV.propUnsatTotal, List.map_cons, List.sum_cons, hd0]
          omega

/-- C9 (amended): in every session result, violations_found equals the
number of property checks the solver answered unsat PLUS the number of
recorded trojan findings — the property-check increments record no
finding at all, so violations_found exceeds the number of non-warning
findings whenever some property check came back unsat. -/
theorem c9_violation_count (names : List String) (props : List FV.FVProperty)
    (res : FV.FVState) (h : FV.fvVerify names props FV.fvInit = some res) :
    res.violationsFound =
      FV.propUnsatTotal names props + res.trojanFindings.length := by
  unfold FV.fvVerify FV.fvTrojanSpecific at h
  by_cases hck : (names.contains "ciphertext" && names.contains "key") = true
  · rw [if_pos hck] at h
    exact Option.noConfusion h
  · rw [if_neg hck] at h
    have h2 := Option.some.inj h
    rw [← h2]
    obtain ⟨g1, g2, g3⟩ := verifyGeneric_count names props FV.fvInit rfl
    unfold FV.trojanCheck1
    by_cases hr : (names.contains "rare_signal1" && names.contains "rare_signal2") = true
    · rw [if_pos hr]
      cases hfs : firstSat
          ((FV.verifyGeneric names props FV.fvInit).constraints ++ [FV.rareCond]) with
      | some τ =>
          simp only [hfs, g1, g2]
          simp [FV.fvInit]
      | none =>
          simp only [hfs, g1, g2]
          simp [FV.fvInit]
    · rw [if_neg hr]
      rw [g1, g2]
      simp [FV.fvInit]

/-- C9 witness: the theorem applied to a session with one unsatisfiable
plain property and no trojan signals. -/
theorem c9_witness :
    (⟨[], 1, 1, [], []⟩ : FV.FVState).violationsFound =
      FV.propUnsatTotal ["x"]
        [⟨"x && !x", .plainP (.andE (.var "x") (.notE (.var "x")))⟩] +
      (⟨[], 1, 1, [], []⟩ : FV.FVState).trojanFindings.length :=
  c9_violation_count ["x"]
    [⟨"x && !x", .plainP (.andE (.var "x") (.notE (.var "x")))⟩]
    ⟨[], 1, 1, [], []⟩ (by decide)

/-- C9 counterexample: a session whose single property is the
unsatisfiable `x && !x` ends with violations_found = 1 while its
non-warning findings list (trojan_findings) is empty — and its warnings
are empty too — so violations_found does not equal the number of
findings in non-warning categories. -/
theorem c9_counterexample :
    FV.fvVerify ["x"]
        [⟨"x && !x", .plainP (.andE (.var "x") (.notE (.var "x")))⟩]
        FV.fvInit =
      some ⟨[], 1, 1, [], []⟩ := by decide

end HSV
